import Mathlib

/-!
Verification of the AugLy text composition-and-provenance engine against its
specification.  The repository ships the unit-test suite
(`augly/tests/text_tests/transforms_unit_test.py`) and the public package
surface (`augly/text/module init`); the transform bodies themselves are
modelled from the specification where noted.  The helper
`are_equal_metadata` is embedded directly from the test source.
-/

set_option maxRecDepth 4000

namespace AuglyText

/-! ## Metadata records and sinks (spec section 3) -/

/-- Modelled from the spec: a MetadataRecord holds at minimum the transform
name, the before/after snapshot of the text, and the `choice_index`
annotation a `OneOf` combinator may add (section 3, section 4.3). -/
structure MetaRecord where
  name : String
  srcText : String
  dstText : String
  choiceIndex : Option Nat := none
deriving Repr, DecidableEq

/-- Modelled from the spec: a sink entry is either a flat record appended by a
leaf transform, or a nested list appended as one entry per text by a
combinator (section 2, section 3). -/
inductive MetaEntry where
  | leaf (r : MetaRecord)
  | nested (rs : List MetaRecord)
deriving Repr, DecidableEq

/-- The caller-supplied mutable metadata list, modelled as an explicit
accumulator with append-only use (spec section 3, section 9). -/
abbrev MetadataSink := List MetaEntry

/-- The source text a leaf entry describes, if the entry is a leaf. -/
def MetaEntry.srcTextOf : MetaEntry → Option String
  | .leaf r => some r.srcText
  | .nested _ => none

/-! ## Random source (spec section 9: explicit random-source handle) -/

/-- Modelled from the spec: the injected pseudo-random source is an explicit
generator state advanced by a linear congruential step; determinism is a
property of the explicit seed, not ambient state (section 4.1, section 9). -/
def lcgNext (s : Nat) : Nat := (1103515245 * s + 12345) % 2 ^ 31

/-! ## Leaf transforms (spec section 4.1) -/

/-- Modelled from the spec: a leaf Transform is a named pure text-mutation
function; stochastic behaviour reads the explicit generator state passed to
it (section 2, section 6, section 9).  The implementation module
`augly/text/transforms.py` is not in the source tree; only its test suite
and package surface are. -/
structure LeafTransform where
  name : String
  mutate : Nat → String → String

/-- The metadata record a leaf transform writes for one text. -/
def leafRecord (t : LeafTransform) (g : Nat) (s : String) : MetaRecord :=
  { name := t.name, srcText := s, dstText := t.mutate g s }

/-- Modelled from the spec: process a batch text by text, threading the
generator state, producing one output text and one record per input text in
order (section 4.1). -/
def LeafTransform.applyBatch (t : LeafTransform) (g : Nat) :
    List String → List String × List MetaRecord × Nat
  | [] => ([], [], g)
  | s :: rest =>
    let out := t.mutate g s
    let r := leafRecord t g s
    let res := t.applyBatch (lcgNext g) rest
    (out :: res.1, r :: res.2.1, res.2.2)

/-- Modelled from the spec: `apply` returns the new batch and appends exactly
one flat record per input text to the caller-supplied sink (section 4.1). -/
def LeafTransform.apply (t : LeafTransform) (g : Nat) (texts : List String)
    (sink : MetadataSink) : List String × MetadataSink × Nat :=
  let res := t.applyBatch g texts
  (res.1, sink ++ res.2.1.map MetaEntry.leaf, res.2.2)

/-- A transform has no internal randomness when its mutation ignores the
generator state. -/
def NoInternalRandomness (t : LeafTransform) : Prop :=
  ∀ g g' s, t.mutate g s = t.mutate g' s

/-! ## Compose (spec section 4.2) -/

/-- Modelled from the spec: `Compose` is constructed from an ordered list of
Transforms; `apply` threads the batch through each Transform in list order,
the output of step k becoming the input of step k+1, while a nested record
list per input text collects one record from each step (section 4.2). -/
structure Compose where
  transforms : List LeafTransform

/-- Thread the batch through the remaining steps, accumulating the per-text
nested record lists (`acc` holds, for each text position, the records of the
steps already run). -/
def Compose.applyAux : List LeafTransform → Nat → List String →
    List (List MetaRecord) → List String × List (List MetaRecord) × Nat
  | [], g, texts, acc => (texts, acc, g)
  | t :: rest, g, texts, acc =>
    let res := t.applyBatch g texts
    Compose.applyAux rest res.2.2 res.1
      (List.zipWith (fun l r => l ++ [r]) acc res.2.1)

/-- Modelled from the spec: the per-text nested list is appended as a single
entry to the outer metadata sink, preserving step order (section 4.2). -/
def Compose.apply (c : Compose) (g : Nat) (texts : List String)
    (sink : MetadataSink) : List String × MetadataSink × Nat :=
  let res := Compose.applyAux c.transforms g texts (texts.map fun _ => [])
  (res.1, sink ++ res.2.1.map MetaEntry.nested, res.2.2)

/-! ## OneOf (spec section 4.3) -/

/-- Modelled from the spec: `OneOf` is constructed from an ordered list of
candidate Transforms; each `apply` call draws one index from the injected
random source (section 4.3). -/
structure OneOf where
  candidates : List LeafTransform

/-- The single per-call draw: the chosen candidate index. -/
def OneOf.choice (o : OneOf) (g : Nat) : Nat := g % o.candidates.length

/-- Modelled from the spec: `OneOf` selects exactly one candidate per call to
`apply`, applies that single Transform to the entire batch, and appends, per
text, a single-element nested list containing the chosen record annotated
with the `choice_index` of the candidate that ran (section 4.3). -/
def OneOf.apply (o : OneOf) (g : Nat) (texts : List String)
    (sink : MetadataSink) : List String × MetadataSink × Nat :=
  if h : o.candidates.length = 0 then (texts, sink, g)
  else
    let i := o.choice g
    let t := o.candidates.get ⟨i, Nat.mod_lt _ (Nat.pos_of_ne_zero h)⟩
    let res := t.applyBatch (lcgNext g) texts
    (res.1,
     sink ++ res.2.1.map (fun r => MetaEntry.nested [{ r with choiceIndex := some i }]),
     res.2.2)

/-! ## Construction-time configuration validation (spec sections 4.1, 7) -/

/-- Modelled from the spec: the error taxonomy of section 7. -/
inductive AugError where
  | configurationError (msg : String)
  | inputError (msg : String)
  | malformedMetadataError (msg : String)
deriving Repr, DecidableEq

/-- Modelled from the spec: the immutable configuration bound to a
probability-gated Transform at construction time (section 3, section 6). -/
structure AugConfig where
  aug_p : ℚ
  aug_min : Nat
  aug_max : Nat
  seed : Nat
deriving Repr, DecidableEq

/-- Modelled from the spec: construction fails with `ConfigurationError` when
`aug_p` is outside `[0, 1]` or `aug_min > aug_max` (section 4.1, section 7). -/
def validateConfig (c : AugConfig) : Except AugError AugConfig :=
  if c.aug_p < 0 ∨ 1 < c.aug_p then
    .error (.configurationError "aug_p must be in the interval [0, 1]")
  else if c.aug_max < c.aug_min then
    .error (.configurationError "aug_min must not exceed aug_max")
  else .ok c

/-- A probability-gated transform: its configuration was validated when the
instance was constructed. -/
structure GatedTransform where
  cfg : AugConfig
  base : LeafTransform
  validated : validateConfig cfg = .ok cfg

/-- Modelled from the spec: constructing a probability-gated Transform
validates the configuration and fails with `ConfigurationError` on invalid
parameters, at construction time (section 4.1, section 7). -/
def mkGatedTransform (c : AugConfig) (t : LeafTransform) :
    Except AugError GatedTransform :=
  match h : validateConfig c with
  | .error e => .error e
  | .ok cc => .ok ⟨cc, t, by
      unfold validateConfig at h ⊢
      split at h
      · cases h
      · split at h
        · cases h
        · cases h
          rename_i hp hm
          rw [if_neg hp, if_neg hm]⟩

/-- Modelled from the spec: `apply` on a constructed transform performs no
configuration check; errors of the `ConfigurationError` kind are caught at
construction, never at call time (section 7). -/
def GatedTransform.applyE (t : GatedTransform) (texts : List String)
    (sink : MetadataSink) : Except AugError (List String × MetadataSink × Nat) :=
  .ok (t.base.apply t.cfg.seed texts sink)

/-! ## InsertPunctuationChars with granularity "all" and cadence 1.0 -/

/-- Separator-joined character list: the characters of the input interleaved
with the separator. -/
def interleaveSep (sep : List Char) : List Char → List Char
  | [] => []
  | [c] => [c]
  | c :: rest => c :: sep ++ interleaveSep sep rest

/-- Modelled from the spec: with `aug_p = 1.0` and granularity `"all"`,
`insert_punctuation_chars` inserts the separator between every character of
the string (spec section 8); the separator placement is pinned by the
expected output of `TransformsTextUnitTest.test_InsertPunctuationChars` in
`augly/tests/text_tests/transforms_unit_test.py`. -/
def insertPunctuationChars (sep : String) (s : String) : String :=
  String.mk (interleaveSep sep.data s.data)

/-- The canonical test sentence of `TransformsTextUnitTest.setUpClass`. -/
def testSentence : String :=
  "The quick brown \x27fox\x27 couldn\x27t jump over the green, grassy hill."

/-- The expected output of `test_InsertPunctuationChars` on the canonical
test sentence. -/
def expectedPunc : String :=
  "T?h?e? ?q?u?i?c?k? ?b?r?o?w?n? ?\x27?f?o?x?\x27? ?c?o?u?l?d?n?\x27?t? " ++
  "?j?u?m?p? ?o?v?e?r? ?t?h?e? ?g?r?e?e?n?,? ?g?r?a?s?s?y? ?h?i?l?l?."

/-! ## EncodeTextTransform with encoder "base64" -/

/-- The base64 alphabet. -/
def base64Alphabet : List Char :=
  "ABCDEFGHIJKLMNOPQRSTUVWXYZabcdefghijklmnopqrstuvwxyz0123456789+/".data

/-- The base64 digit for a 6-bit value. -/
def b64Digit (n : Nat) : Char := base64Alphabet.getD n 'A'

/-- Standard base64 encoding of a byte sequence, with `=` padding. -/
def base64Encode : List Nat → List Char
  | [] => []
  | [b1] =>
    [b64Digit (b1 / 4), b64Digit (b1 % 4 * 16), '=', '=']
  | [b1, b2] =>
    [b64Digit (b1 / 4), b64Digit (b1 % 4 * 16 + b2 / 16), b64Digit (b2 % 16 * 4), '=']
  | b1 :: b2 :: b3 :: rest =>
    b64Digit (b1 / 4) :: b64Digit (b1 % 4 * 16 + b2 / 16) ::
      b64Digit (b2 % 16 * 4 + b3 / 64) :: b64Digit (b3 % 64) :: base64Encode rest

/-- Modelled from the spec: base64 encoding of a text, taking each character
as its code point (the canonical texts are ASCII). -/
def base64OfString (s : String) : String :=
  String.mk (base64Encode (s.data.map Char.toNat))

/-- Trailing punctuation of a word: the maximal run of non-alphanumeric
characters at its end, returned as (core, punctuation). -/
def splitTrailingPunct (w : List Char) : List Char × List Char :=
  match w with
  | [] => ([], [])
  | c :: rest =>
    let res := splitTrailingPunct rest
    if res.1 = [] ∧ ¬ c.isAlphanum then ([], c :: res.2)
    else (c :: res.1, res.2)

/-- Split a character list on a separator character, keeping empty pieces,
as Python `str.split` with an explicit separator does. -/
def splitOnChar (sep : Char) : List Char → List (List Char)
  | [] => [[]]
  | c :: rest =>
    let res := splitOnChar sep rest
    if c = sep then [] :: res
    else
      match res with
      | [] => [[c]]
      | w :: ws => (c :: w) :: ws

/-- Join word character lists back with single spaces. -/
def joinWithSpace : List (List Char) → List Char
  | [] => []
  | [w] => w
  | w :: ws => w ++ ' ' :: joinWithSpace ws

/-- Modelled from the spec: `EncodeTextTransform` with encoder `"base64"` and
`aug_p = 1.0` encodes the whole text when granularity is `"all"`; with
granularity `"word"` only the first whitespace-delimited token is encoded,
with punctuation attached to it stripped before encoding and reattached
after (spec section 8). -/
def encodeTextBase64 (granularity : String) (s : String) : String :=
  if granularity = "all" then base64OfString s
  else if granularity = "word" then
    match splitOnChar ' ' s.data with
    | [] => s
    | w :: rest =>
      let parts := splitTrailingPunct w
      let encoded := base64Encode (parts.1.map Char.toNat) ++ parts.2
      String.mk (joinWithSpace (encoded :: rest))
  else s

/-! ## ReplaceText -/

/-- Modelled from the spec and `TransformsTextUnitTest.test_ReplaceText`:
`ReplaceText` built from a mapping replaces an input text by its mapped
value exactly when the whole text equals a key of the mapping, and returns
every other text unchanged. -/
def replaceTextOne (mapping : List (String × String)) (t : String) : String :=
  match mapping.find? (fun kv => kv.1 = t) with
  | some kv => kv.2
  | none => t

/-- The `ReplaceText` transform applied to a batch. -/
def replaceTextBatch (mapping : List (String × String)) (texts : List String) :
    List String :=
  texts.map (replaceTextOne mapping)

/-- The replacement mapping of `TransformsTextUnitTest.test_ReplaceText`. -/
def testReplaceMapping : List (String × String) :=
  [("couldn\x27t jump", "jumped"),
   ("jump over the blue", "jump over the red"),
   ("The quick brown", "The slow green")]

/-- The input batch of `TransformsTextUnitTest.test_ReplaceText`. -/
def testReplaceTexts : List String :=
  [testSentence, "The quick brown", "jump over the green"]

/-! ## are_equal_metadata, embedded from
`augly/tests/text_tests/transforms_unit_test.py` lines 20 to 49 -/

/-- A metadata field value as seen by `are_equal_metadata`: the function only
distinguishes string values from everything else, so non-string values are
abstracted to an opaque tag with decidable equality. -/
inductive Value where
  | str (s : String)
  | other (tag : Nat)
deriving Repr, DecidableEq

/-- A metadata dictionary: association list of field name and value.  Source
dictionaries have unique keys. -/
abbrev Dict := List (String × Value)

/-- Lexicographic code-point comparison of character lists: the order of
Python string comparison. -/
def charListLt : List Char → List Char → Bool
  | [], [] => false
  | [], _ :: _ => true
  | _ :: _, [] => false
  | c :: cs, d :: ds =>
    if c.toNat < d.toNat then true
    else if d.toNat < c.toNat then false
    else charListLt cs ds

/-- Python string `<` on keys. -/
def keyLt (a b : String) : Bool := charListLt a.data b.data

/-- Insert an item into a key-sorted item list. -/
def insertByKey (x : String × Value) : List (String × Value) → List (String × Value)
  | [] => [x]
  | y :: rest => if keyLt x.1 y.1 then x :: y :: rest else y :: insertByKey x rest

/-- Python `sorted(d.items(), key=lambda kv: kv[0])`: the items sorted by key. -/
def sortItems : List (String × Value) → List (String × Value)
  | [] => []
  | x :: rest => insertByKey x (sortItems rest)

/-- Count of `os.path.sep` at the start of the path, as in posixpath.normpath:
2 for exactly two leading slashes, 1 for any other number of leading
slashes, 0 otherwise. -/
def initialSlashCount (p : String) : Nat :=
  if p.startsWith "//" ∧ ¬ p.startsWith "///" then 2
  else if p.startsWith "/" then 1
  else 0

/-- One step of posixpath.normpath component processing: drop empty and `.`
components, resolve `..` against the accumulated components. -/
def normpathStep (isAbs : Bool) (acc : List String) (comp : String) : List String :=
  if comp = "" ∨ comp = "." then acc
  else if comp ≠ ".." ∨ (isAbs = false ∧ acc = []) ∨ acc.getLast? = some ".." then
    acc ++ [comp]
  else if acc ≠ [] then acc.dropLast
  else acc

/-- Python `os.path.normpath` on the posix platform the test suite runs on. -/
def normpath (p : String) : String :=
  if p = "" then "."
  else
    let isl := initialSlashCount p
    let newComps := (p.splitOn "/").foldl (normpathStep (decide (isl ≠ 0))) []
    let res := String.mk (List.replicate isl '/') ++ String.intercalate "/" newComps
    if res = "" then "." else res

/-- The Python slice `a[-n:]`: the last `n` characters, the whole string when
`n = 0` (since `-0 == 0`) or when `n` exceeds the length. -/
def pySuffix (a : String) (n : Nat) : String :=
  if n = 0 then a else String.mk (a.data.drop (a.data.length - n))

/-- One value pair of the inner loop of `are_equal_metadata`: equal values
pass; otherwise both must be strings whose normalized path components match
on the suffix of the actual value. -/
def valueOk (act exp : Value) : Bool :=
  if act = exp then true
  else
    match act, exp with
    | .str a, .str e =>
        decide ((normpath (pySuffix a e.length)).splitOn "/" = (normpath e).splitOn "/")
    | _, _ => false

/-- The inner loop of `are_equal_metadata` over the zipped sorted items: a
key mismatch or a failing value pair returns `false` for the whole
comparison. -/
def itemsOk : List ((String × Value) × (String × Value)) → Bool
  | [] => true
  | (a, e) :: rest =>
    if a.1 ≠ e.1 then false
    else if valueOk a.2 e.2 then itemsOk rest
    else false

/-- One dictionary pair of the outer loop of `are_equal_metadata`. -/
def recordOk (a e : Dict) : Bool := itemsOk ((sortItems a).zip (sortItems e))

/-- Python dictionary equality for unique-key dictionaries: equal sorted
item lists. -/
def dictBEq (a e : Dict) : Bool := decide (sortItems a = sortItems e)

/-- The initial `actual_meta == expected_meta` check: Python list equality,
elementwise dictionary equality at equal lengths. -/
def metaListBEq (a e : List Dict) : Bool :=
  decide (a.length = e.length) && (a.zip e).all fun p => dictBEq p.1 p.2

/-- The function `are_equal_metadata` from `transforms_unit_test.py`: equal metadata
lists pass immediately; otherwise every zipped dictionary pair must pass the
key-by-key comparison. -/
def are_equal_metadata (a e : List Dict) : Bool :=
  if metaListBEq a e then true
  else (a.zip e).all fun p => recordOk p.1 p.2

/-- The declarative reading of one visited item pair: keys agree and the
values are equal or are both strings related by the normalized path-suffix
rule. -/
def ItemSpec (q : (String × Value) × (String × Value)) : Prop :=
  q.1.1 = q.2.1 ∧
    (q.1.2 = q.2.2 ∨
      ∃ sa se, q.1.2 = Value.str sa ∧ q.2.2 = Value.str se ∧
        (normpath (pySuffix sa se.length)).splitOn "/" = (normpath se).splitOn "/")

/-! ## Sample transforms used by concrete instantiations -/

/-- A deterministic leaf transform appending an exclamation mark. -/
def exclaimLeaf : LeafTransform := ⟨"exclaim", fun _ s => s ++ "!"⟩

/-- A deterministic leaf transform doubling the text. -/
def dupLeaf : LeafTransform := ⟨"dup", fun _ s => s ++ s⟩

/-- A two-candidate `OneOf`, as in `TransformsTextUnitTest.test_Compose`. -/
def sampleOneOf : OneOf := ⟨[exclaimLeaf, dupLeaf]⟩

/-! ## Supporting lemmas -/

theorem applyBatch_records_length (t : LeafTransform) (g : Nat)
    (texts : List String) : (t.applyBatch g texts).2.1.length = texts.length := by
  induction texts generalizing g with
  | nil => rfl
  | cons s rest ih => simp [LeafTransform.applyBatch, ih]

theorem applyBatch_records_src (t : LeafTransform) (g : Nat)
    (texts : List String) :
    (t.applyBatch g texts).2.1.map MetaRecord.srcText = texts := by
  induction texts generalizing g with
  | nil => rfl
  | cons s rest ih => simp [LeafTransform.applyBatch, leafRecord, ih]

theorem applyBatch_records_name (t : LeafTransform) (g : Nat)
    (texts : List String) :
    ∀ r ∈ (t.applyBatch g texts).2.1, r.name = t.name := by
  induction texts generalizing g with
  | nil => intro r hr; simp [LeafTransform.applyBatch] at hr
  | cons s rest ih =>
    intro r hr
    simp only [LeafTransform.applyBatch, List.mem_cons] at hr
    rcases hr with h | h
    · subst h; rfl
    · exact ih (lcgNext g) r h

theorem applyBatch_texts_of_noRandom (t : LeafTransform)
    (h : NoInternalRandomness t) (g : Nat) (texts : List String) :
    (t.applyBatch g texts).1 = texts.map (t.mutate 0) := by
  induction texts generalizing g with
  | nil => rfl
  | cons s rest ih =>
    simp [LeafTransform.applyBatch, ih, h g 0 s]

theorem applyAux_texts_acc_free (ts : List LeafTransform) (g : Nat)
    (texts : List String) (acc acc' : List (List MetaRecord)) :
    (Compose.applyAux ts g texts acc).1 = (Compose.applyAux ts g texts acc').1 := by
  induction ts generalizing g texts acc acc' with
  | nil => rfl
  | cons t rest ih => simp only [Compose.applyAux]; exact ih _ _ _ _

theorem interleaveSep_length (sep : List Char) (l : List Char) :
    (interleaveSep sep l).length = l.length + sep.length * (l.length - 1) := by
  induction l with
  | nil => simp [interleaveSep]
  | cons c rest ih =>
    cases rest with
    | nil => simp [interleaveSep]
    | cons d rest' =>
      have h3 : interleaveSep sep (c :: d :: rest') =
          (c :: sep) ++ interleaveSep sep (d :: rest') := rfl
      rw [h3, List.length_append, ih]
      simp only [List.length_cons, Nat.add_sub_cancel, Nat.mul_add, Nat.mul_one]
      omega

theorem interleaveSep_getLast? (sep : List Char) (l : List Char) :
    (interleaveSep sep l).getLast? = l.getLast? := by
  induction l with
  | nil => rfl
  | cons c rest ih =>
    cases rest with
    | nil => rfl
    | cons d rest' =>
      have hne : interleaveSep sep (d :: rest') ≠ [] := by
        cases rest' <;> simp [interleaveSep]
      have h3 : interleaveSep sep (c :: d :: rest') =
          (c :: sep) ++ interleaveSep sep (d :: rest') := rfl
      rw [h3, List.getLast?_append_of_ne_nil _ hne, ih, List.getLast?_cons_cons]

theorem valueOk_iff (u v : Value) :
    valueOk u v = true ↔
      (u = v ∨ ∃ sa se, u = Value.str sa ∧ v = Value.str se ∧
        (normpath (pySuffix sa se.length)).splitOn "/" = (normpath se).splitOn "/") := by
  cases u with
  | str a =>
    cases v with
    | str e =>
      by_cases h : Value.str a = Value.str e
      · simp [valueOk, h]
      · have ha : a ≠ e := fun hh => h (by rw [hh])
        simp only [valueOk, Value.str.injEq, if_neg ha, decide_eq_true_eq]
        constructor
        · intro hc
          exact Or.inr ⟨a, e, rfl, rfl, hc⟩
        · intro hd
          rcases hd with hd | ⟨sa, se, h1, h2, hc⟩
          · exact absurd hd ha
          · cases h1; cases h2; exact hc
    | other t => simp [valueOk]
  | other t =>
    cases v with
    | str e => simp [valueOk]
    | other t' =>
      by_cases h : (t : Nat) = t'
      · subst h; simp [valueOk]
      · simp [valueOk, h]

theorem itemsOk_iff (l : List ((String × Value) × (String × Value))) :
    itemsOk l = true ↔ ∀ q ∈ l, ItemSpec q := by
  induction l with
  | nil => simp [itemsOk]
  | cons q rest ih =>
    obtain ⟨a, e⟩ := q
    by_cases hk : a.1 = e.1
    · by_cases hv : valueOk a.2 e.2 = true
      · simp only [itemsOk, if_neg (not_not_intro hk), if_pos hv, ih,
          List.mem_cons]
        constructor
        · intro h q hq
          rcases hq with hq | hq
          · subst hq; exact ⟨hk, (valueOk_iff _ _).mp hv⟩
          · exact h q hq
        · intro h q hq; exact h q (Or.inr hq)
      · simp only [itemsOk, if_neg (not_not_intro hk), if_neg hv]
        constructor
        · intro h; cases h
        · intro h
          have := (h (a, e) (List.mem_cons_self _ _)).2
          exact absurd ((valueOk_iff _ _).mpr this) hv
    · simp only [itemsOk, if_pos hk]
      constructor
      · intro h; cases h
      · intro h
        exact absurd (h (a, e) (List.mem_cons_self _ _)).1 hk

theorem itemsOk_diag (l : List (String × Value)) : itemsOk (l.zip l) = true := by
  rw [itemsOk_iff]
  intro q hq
  have : q.1 = q.2 := by
    induction l with
    | nil => cases hq
    | cons x rest ih =>
      rcases List.mem_cons.mp hq with h | h
      · rw [h]
      · exact ih h
  exact ⟨by rw [this], Or.inl (by rw [this])⟩

/-- The full visitation semantics of `are_equal_metadata`, with the early
list-equality return absorbed (equal lists pass the loop as well). -/
theorem are_equal_metadata_iff (a e : List Dict) :
    are_equal_metadata a e = true ↔
      ∀ p ∈ a.zip e, ∀ q ∈ (sortItems p.1).zip (sortItems p.2), ItemSpec q := by
  unfold are_equal_metadata
  by_cases hb : metaListBEq a e = true
  · rw [if_pos hb]
    simp only [true_iff]
    intro p hp
    have hd : dictBEq p.1 p.2 = true := by
      have := (Bool.and_eq_true _ _).mp hb
      exact List.all_eq_true.mp this.2 p hp
    have hs : sortItems p.1 = sortItems p.2 := of_decide_eq_true hd
    rw [hs]
    intro q hq
    exact (itemsOk_iff _).mp (itemsOk_diag (sortItems p.2)) q hq
  · rw [if_neg hb, List.all_eq_true]
    constructor
    · intro h p hp
      have := h p hp
      exact (itemsOk_iff _).mp this
    · intro h p hp
      exact (itemsOk_iff _).mpr (h p hp)

theorem zip_take_eq {α β : Type} (a : List α) (e : List β) (n : Nat) :
    (a.take n).zip (e.take n) = (a.zip e).take n := by
  induction a generalizing e n with
  | nil => simp
  | cons x xs ih =>
    cases e with
    | nil => simp
    | cons y ys =>
      cases n with
      | zero => simp
      | succ m => simp [ih]

/-! ## Claim theorems -/

/-- C1: one call to `OneOf.apply` on a batch of N texts draws one candidate
index, applies that single chosen Transform to the entire batch, and appends
N metadata records that all carry the same name and the same choice index. -/
theorem oneOf_single_draw (o : OneOf) (g : Nat) (texts : List String)
    (sink : MetadataSink) (h : o.candidates ≠ []) :
    ∃ new nm, (o.apply g texts sink).2.1 = sink ++ new ∧
      new.length = texts.length ∧
      ∀ e ∈ new, ∃ r, e = MetaEntry.nested [r] ∧ r.name = nm ∧
        r.choiceIndex = some (o.choice g) := by
  have hlen : ¬ o.candidates.length = 0 := by
    simpa [List.length_eq_zero] using h
  simp only [OneOf.apply, dif_neg hlen]
  refine ⟨_,
    (o.candidates.get ⟨o.choice g, Nat.mod_lt _ (Nat.pos_of_ne_zero hlen)⟩).name,
    rfl, ?_, ?_⟩
  · rw [List.length_map, applyBatch_records_length]
  · intro e he
    rcases List.mem_map.mp he with ⟨r, hr, rfl⟩
    exact ⟨_, rfl, applyBatch_records_name _ _ _ r hr, rfl⟩

/-- C1 witness: the single-draw property at a concrete two-candidate `OneOf`
on a three-text batch. -/
theorem oneOf_single_draw_witness :
    sampleOneOf.candidates ≠ [] ∧
    ∃ new nm, (sampleOneOf.apply 7 ["a", "b", "c"] []).2.1 = [] ++ new ∧
      new.length = (["a", "b", "c"] : List String).length ∧
      ∀ e ∈ new, ∃ r, e = MetaEntry.nested [r] ∧ r.name = nm ∧
        r.choiceIndex = some (sampleOneOf.choice 7) :=
  ⟨by simp [sampleOneOf], oneOf_single_draw sampleOneOf 7 ["a", "b", "c"] []
    (by simp [sampleOneOf])⟩

/-- C7: a leaf Transform call appends exactly one metadata record per input
text, in text order, and leaves every entry already in the sink in place. -/
theorem leaf_apply_metadata_frame (t : LeafTransform) (g : Nat)
    (texts : List String) (sink : MetadataSink) :
    ∃ new, (t.apply g texts sink).2.1 = sink ++ new ∧
      new.length = texts.length ∧
      new.map MetaEntry.srcTextOf = texts.map some := by
  refine ⟨(t.applyBatch g texts).2.1.map MetaEntry.leaf, rfl, ?_, ?_⟩
  · rw [List.length_map, applyBatch_records_length]
  · rw [List.map_map,
      show MetaEntry.srcTextOf ∘ MetaEntry.leaf = some ∘ MetaRecord.srcText from rfl,
      ← List.map_map, applyBatch_records_src]

/-- C2: for leaf Transforms A and B with no internal randomness,
`Compose [A, B]` returns the same output texts as applying A and then B,
whatever the seeds; and in general `Compose` threads the batch through each
Transform in list order, the output of step k feeding step k+1. -/
theorem compose_threads_in_order (A B : LeafTransform) (T : List String)
    (g g1 g2 : Nat) (sink sink1 sink2 : MetadataSink)
    (hA : NoInternalRandomness A) (hB : NoInternalRandomness B) :
    (Compose.apply ⟨[A, B]⟩ g T sink).1 =
      (B.apply g2 ((A.apply g1 T sink1).1) sink2).1 ∧
    ∀ (t : LeafTransform) (ts : List LeafTransform) (g' : Nat)
      (T' : List String) (sink' : MetadataSink),
      (Compose.apply ⟨t :: ts⟩ g' T' sink').1 =
        (Compose.apply ⟨ts⟩ (t.applyBatch g' T').2.2 ((t.applyBatch g' T').1) sink').1 := by
  constructor
  · simp only [Compose.apply, Compose.applyAux, LeafTransform.apply,
      applyBatch_texts_of_noRandom A hA, applyBatch_texts_of_noRandom B hB]
  · intro t ts g' T' sink'
    simp only [Compose.apply, Compose.applyAux]
    exact applyAux_texts_acc_free _ _ _ _ _

/-- C2 witness: the composition equality at two concrete deterministic leaf
transforms with unrelated seeds. -/
theorem compose_threads_in_order_witness :
    NoInternalRandomness exclaimLeaf ∧ NoInternalRandomness dupLeaf ∧
    (Compose.apply ⟨[exclaimLeaf, dupLeaf]⟩ 5 ["ab"] []).1 =
      (dupLeaf.apply 9 ((exclaimLeaf.apply 3 ["ab"] []).1) []).1 :=
  ⟨fun _ _ _ => rfl, fun _ _ _ => rfl,
   (compose_threads_in_order exclaimLeaf dupLeaf ["ab"] 5 3 9 [] [] []
     (fun _ _ _ => rfl) (fun _ _ _ => rfl)).1⟩

/-- C3: a Transform built from a configuration and seed, applied twice to the
same batch, produces identical output texts and appends identical metadata
on both runs, whatever each run's pre-existing sink contents. -/
theorem transform_two_run_determinism (t : GatedTransform) (texts : List String)
    (sink1 sink2 : MetadataSink) :
    ∃ out newMeta gOut,
      t.applyE texts sink1 = .ok (out, sink1 ++ newMeta, gOut) ∧
      t.applyE texts sink2 = .ok (out, sink2 ++ newMeta, gOut) :=
  ⟨(t.base.applyBatch t.cfg.seed texts).1,
   (t.base.applyBatch t.cfg.seed texts).2.1.map MetaEntry.leaf,
   (t.base.applyBatch t.cfg.seed texts).2.2, rfl, rfl⟩

/-- C4 counterexample: on input `"hi"` with separator `"?"`, the result is
`"h?i"` with no separator after the final character, refuting the claimed
trailing separator (`"h?i?"`). -/
theorem insertPunctuationChars_trailing_counterexample :
    insertPunctuationChars "?" "hi" = "h?i" ∧
    insertPunctuationChars "?" "hi" ≠ "h?i?" := by
  decide

/-- C4 amended: with `aug_p = 1.0` and granularity `"all"`, a separator is
inserted between every pair of adjacent characters — after every character
except the last, so the final character of the input stays final.  The first
conjunct pins the behaviour to the expected output of
`test_InsertPunctuationChars` on the canonical test sentence. -/
theorem insertPunctuationChars_between_every_char :
    insertPunctuationChars "?" testSentence = expectedPunc ∧
    (∀ sep s : String, (insertPunctuationChars sep s).length =
      s.length + sep.length * (s.length - 1)) ∧
    (∀ sep s : String,
      (insertPunctuationChars sep s).data.getLast? = s.data.getLast?) := by
  refine ⟨by decide, ?_, ?_⟩
  · intro sep s
    show (interleaveSep sep.data s.data).length = _
    rw [interleaveSep_length]
    rfl
  · intro sep s
    exact interleaveSep_getLast? sep.data s.data

/-- C5: base64 encoding of `"Hello, world!"` is `"SGVsbG8sIHdvcmxkIQ=="` at
granularity `"all"`, and `"SGVsbG8=, world!"` at granularity `"word"`, where
only the first whitespace-delimited token is encoded with its trailing
punctuation stripped and reattached. -/
theorem encodeTextBase64_hello_world :
    encodeTextBase64 "all" "Hello, world!" = "SGVsbG8sIHdvcmxkIQ==" ∧
    encodeTextBase64 "word" "Hello, world!" = "SGVsbG8=, world!" := by
  constructor <;> decide

theorem mkGatedTransform_error_iff (c : AugConfig) (t : LeafTransform)
    (e : AugError) :
    mkGatedTransform c t = .error e ↔ validateConfig c = .error e := by
  unfold mkGatedTransform
  split <;> rename_i h' <;> simp [h']

theorem validateConfig_error_iff (c : AugConfig) :
    (∃ msg, validateConfig c = .error (.configurationError msg)) ↔
      (c.aug_p < 0 ∨ 1 < c.aug_p ∨ c.aug_max < c.aug_min) := by
  unfold validateConfig
  by_cases h1 : c.aug_p < 0 ∨ 1 < c.aug_p
  · simp only [if_pos h1]
    constructor
    · intro _; tauto
    · intro _; exact ⟨_, rfl⟩
  · rw [if_neg h1]
    by_cases h2 : c.aug_max < c.aug_min
    · simp only [if_pos h2]
      constructor
      · intro _; tauto
      · intro _; exact ⟨_, rfl⟩
    · simp only [if_neg h2]
      constructor
      · intro hc; rcases hc with ⟨msg, hmsg⟩; cases hmsg
      · intro hc; tauto

/-- C6: constructing a probability-gated Transform fails with
`ConfigurationError` exactly when `aug_p` lies outside `[0, 1]` or
`aug_min > aug_max` (in particular at `aug_p = 3/2`), and a constructed
Transform's `apply` always returns a result, never an error. -/
theorem config_errors_at_construction (c : AugConfig) (t : LeafTransform) :
    ((∃ msg, mkGatedTransform c t = .error (.configurationError msg)) ↔
      (c.aug_p < 0 ∨ 1 < c.aug_p ∨ c.aug_max < c.aug_min)) ∧
    (∀ (gt : GatedTransform) (texts : List String) (sink : MetadataSink),
      ∃ res, gt.applyE texts sink = .ok res) ∧
    (∃ msg, mkGatedTransform ⟨3 / 2, 0, 1, 0⟩ t =
      .error (.configurationError msg)) := by
  refine ⟨?_, fun gt texts sink => ⟨_, rfl⟩, ?_⟩
  · constructor
    · intro hc
      rcases hc with ⟨msg, hmsg⟩
      exact (validateConfig_error_iff c).mp
        ⟨msg, (mkGatedTransform_error_iff c t _).mp hmsg⟩
    · intro hc
      rcases (validateConfig_error_iff c).mpr hc with ⟨msg, hmsg⟩
      exact ⟨msg, (mkGatedTransform_error_iff c t _).mpr hmsg⟩
  · refine ⟨"aug_p must be in the interval [0, 1]",
      (mkGatedTransform_error_iff _ t _).mpr ?_⟩
    unfold validateConfig
    rw [if_pos]
    exact Or.inr (by norm_num)

/-- C6 witness: the construction-time `ConfigurationError` at the concrete
out-of-range probability 3/2. -/
theorem config_errors_at_construction_witness :
    ∃ msg, mkGatedTransform ⟨3 / 2, 0, 1, 0⟩ exclaimLeaf =
      .error (.configurationError msg) :=
  (config_errors_at_construction ⟨3 / 2, 0, 1, 0⟩ exclaimLeaf).2.2

/-- C8: `are_equal_metadata` succeeds exactly when every visited pair of
sorted items has matching keys and values that are either equal or are both
strings whose normalized path components agree on the suffix of the actual
value; any other unequal visited value pair makes it return false. -/
theorem are_equal_metadata_suffix_semantics (a e : List Dict) :
    are_equal_metadata a e = true ↔
      ∀ p ∈ a.zip e, ∀ q ∈ (sortItems p.1).zip (sortItems p.2),
        q.1.1 = q.2.1 ∧
          (q.1.2 = q.2.2 ∨
            ∃ sa se, q.1.2 = Value.str sa ∧ q.2.2 = Value.str se ∧
              (normpath (pySuffix sa se.length)).splitOn "/" =
                (normpath se).splitOn "/") :=
  are_equal_metadata_iff a e

/-- C8 witness: the characterization applied at a concrete record pair. -/
theorem are_equal_metadata_suffix_semantics_witness :
    are_equal_metadata [[("k", Value.str "v")]] [[("k", Value.str "v")]] = true := by
  apply (are_equal_metadata_suffix_semantics _ _).mpr
  intro p hp q hq
  have hp' : p = ([("k", Value.str "v")], [("k", Value.str "v")]) := by
    simpa using hp
  subst hp'
  have hq' : q = (("k", Value.str "v"), ("k", Value.str "v")) := by
    simpa [sortItems, insertByKey] using hq
  subst hq'
  exact ⟨rfl, Or.inl rfl⟩

/-- C9: `are_equal_metadata` inspects only zipped pairs: it accepts an empty
actual list against any expected list, its verdict is unchanged by dropping
entries beyond the shorter operand, and a record pair passes even when the
expected record has extra trailing sorted items. -/
theorem are_equal_metadata_ignores_extra_entries :
    (∀ E : List Dict, are_equal_metadata [] E = true) ∧
    (∀ A E : List Dict,
      are_equal_metadata A E =
        are_equal_metadata (A.take (min A.length E.length))
          (E.take (min A.length E.length))) ∧
    recordOk [("a", Value.str "x")] [("a", Value.str "x"), ("b", Value.str "y")]
      = true ∧
    are_equal_metadata [] [[("k", Value.str "v")]] = true := by
  refine ⟨?_, ?_, by decide, by decide⟩
  · intro E
    exact (are_equal_metadata_iff [] E).mpr (by simp)
  · intro A E
    have hz : (A.take (min A.length E.length)).zip
        (E.take (min A.length E.length)) = A.zip E := by
      rw [zip_take_eq]
      apply List.take_of_length_le
      rw [List.length_zip]
    have h1 := are_equal_metadata_iff A E
    have h2 := are_equal_metadata_iff (A.take (min A.length E.length))
      (E.take (min A.length E.length))
    rw [hz] at h2
    exact Bool.eq_iff_iff.mpr (h1.trans h2.symm)

/-- C10: `ReplaceText` replaces an input text only when the entire text
equals a key of the mapping; a text matching no key exactly is returned
unchanged, even when — as in the first canonical test text, which contains
the key "couldn\x27t jump" as a proper substring — a key occurs inside it. -/
theorem replaceText_whole_match (m : List (String × String)) (t : String) :
    ((∀ kv ∈ m, kv.1 ≠ t) → replaceTextOne m t = t) ∧
    (∀ kv, m.find? (fun kv => kv.1 = t) = some kv →
      kv ∈ m ∧ kv.1 = t ∧ replaceTextOne m t = kv.2) ∧
    replaceTextBatch testReplaceMapping testReplaceTexts =
      [testSentence, "The slow green", "jump over the green"] ∧
    (∃ pre post, testSentence = pre ++ "couldn\x27t jump" ++ post) := by
  refine ⟨?_, ?_, by decide,
    ⟨"The quick brown \x27fox\x27 ", " over the green, grassy hill.", by decide⟩⟩
  · intro hno
    unfold replaceTextOne
    have hf : m.find? (fun kv => kv.1 = t) = none := by
      apply List.find?_eq_none.mpr
      intro kv hkv
      simpa using hno kv hkv
    rw [hf]
  · intro kv hkv
    refine ⟨List.mem_of_find?_eq_some hkv, ?_, ?_⟩
    · have := List.find?_some hkv
      simpa using this
    · unfold replaceTextOne
      rw [hkv]

/-- C10 witness: on the concrete mapping and texts of `test_ReplaceText`,
the first text (which contains a key as a proper substring) is unchanged and
the exactly-matching second text is replaced. -/
theorem replaceText_whole_match_witness :
    (∀ kv ∈ testReplaceMapping, kv.1 ≠ testSentence) ∧
    replaceTextOne testReplaceMapping testSentence = testSentence ∧
    replaceTextOne testReplaceMapping "The quick brown" = "The slow green" := by
  refine ⟨by decide,
    (replaceText_whole_match testReplaceMapping testSentence).1 (by decide), ?_⟩
  have h := (replaceText_whole_match testReplaceMapping "The quick brown").2.1
    ("The quick brown", "The slow green") (by decide)
  exact h.2.2

end AuglyText
